import Mathlib

/-!
Verification of the category-management API repository
(`src/requirements/fastapi_docs.py`).

Part 1 embeds the FastAPI route handlers themselves (they are pure
functions of their request input, up to the ambient clock, which we pass
explicitly as a `now : String` argument where the source calls
`datetime.now()`).

Part 2 models the tree-reconciliation engine that the repository's spec
describes (`spec.md` §2-§4): the repository contains only mock handlers,
so the engine is modelled from the spec's words.
-/

namespace Api

/-- Python truthiness of `x or d` for an optional string:
`None` and the empty string are falsy. -/
def pyOrStr (x : Option String) (d : String) : String :=
  match x with
  | none => d
  | some s => if s.isEmpty then d else s

/-- Python truthiness of `x or d` for an optional int: `None` and `0` are falsy. -/
def pyOrNat (x : Option Nat) (d : Nat) : Nat :=
  match x with
  | none => d
  | some n => if n = 0 then d else n

/-- `API_KEY = "test_key"` — the documented key (source line 64). -/
def API_KEY : String := "test_key"

structure UserCtx where
  userId : String
deriving DecidableEq, Repr

/-- `get_current_user`: raises 401 iff the `Authorization` header value is
falsy (absent, or present but empty); any other value is accepted and
mapped to the fixed user id (source lines 240-250). -/
def get_current_user (api_key : Option String) : Except Nat UserCtx :=
  match api_key with
  | none => .error 401
  | some k => if k.isEmpty then .error 401 else .ok ⟨"user_2wUsqGRXsrr3oD5dsS8zJtGNXN4"⟩

/-- Request body of `POST /api/categories` (`CategoryCreate`). -/
structure CategoryCreate where
  name : String
  parentId : Option String
  order : Option Nat
deriving DecidableEq, Repr

/-- Request body of `PUT /api/categories/{id}` (`CategoryUpdate`). -/
structure CategoryUpdate where
  name : Option String
  parentId : Option String
  order : Option Nat
deriving DecidableEq, Repr

/-- Request body of `PATCH /api/categories/{id}` (`CategoryPatch`). -/
structure CategoryPatch where
  name : Option String
  parentId : Option String
  order : Option Nat
deriving DecidableEq, Repr

/-- Response model `CategoryResponse`. -/
structure CategoryResponse where
  id : String
  name : String
  parentId : Option String
  order : Nat
  createdAt : String
  updatedAt : String
deriving DecidableEq, Repr

/-- Request/response tree node (`CategoryTreeNode`): `id` is a required field. -/
inductive CategoryTreeNode where
  | node (id : String) (name : String) (children : List CategoryTreeNode)

/-- Response model `TreeSaveResponse`. -/
structure TreeSaveResponse where
  created : List String
  updated : List String
  deleted : List String
deriving DecidableEq, Repr

/-- Response model `DeleteResponse`. -/
structure DeleteResponse where
  success : Bool
  deleted : String
  hasChildren : Bool
  childCount : Nat
deriving DecidableEq, Repr

inductive FormatEnum where
  | TREE
  | FLAT
deriving DecidableEq, Repr

/-- `GET /api/categories` returns one of two shapes depending on `format`. -/
inductive CategoriesResponse where
  | flat (rs : List CategoryResponse)
  | tree (ts : List CategoryTreeNode)

/-- The fixed flat payload of `get_categories` (source lines 392-409). -/
def flatPayload : List CategoryResponse :=
  [⟨"550e8400-e29b-41d4-a716-446655440000", "Electronics", none, 0,
    "2023-07-15T12:00:00Z", "2023-07-15T12:00:00Z"⟩,
   ⟨"550e8400-e29b-41d4-a716-446655440001", "Phones",
    some "550e8400-e29b-41d4-a716-446655440000", 0,
    "2023-07-15T12:00:00Z", "2023-07-15T12:00:00Z"⟩]

/-- The fixed tree payload of `get_categories` (source lines 412-434). -/
def treePayload : List CategoryTreeNode :=
  [.node "550e8400-e29b-41d4-a716-446655440000" "Electronics"
     [.node "550e8400-e29b-41d4-a716-446655440001" "Phones" [],
      .node "550e8400-e29b-41d4-a716-446655440002" "Laptops" []],
   .node "550e8400-e29b-41d4-a716-446655440003" "Clothing" []]

/-- `get_categories` (source lines 379-434): flat payload when
`format == FLAT`, otherwise the tree payload. -/
def get_categories (format : Option FormatEnum) (_user : UserCtx) : CategoriesResponse :=
  if format = some .FLAT then .flat flatPayload else .tree treePayload

/-- `get_category_tree` (source lines 473-497): a fixed two-root forest. -/
def get_category_tree (_user : UserCtx) : List CategoryTreeNode :=
  [.node "550e8400-e29b-41d4-a716-446655440000" "Electronics"
     [.node "550e8400-e29b-41d4-a716-446655440001" "Phones" []],
   .node "550e8400-e29b-41d4-a716-446655440003" "Clothing" []]

/-- `get_category` (source lines 534-554): echoes the path id into a fixed template. -/
def get_category (category_id : String) (_user : UserCtx) : CategoryResponse :=
  ⟨category_id, "Sample Category", none, 0,
   "2023-07-15T12:00:00Z", "2023-07-15T12:00:00Z"⟩

/-- `create_category` (source lines 592-613): fixed id, echoed body fields,
timestamps from the clock. -/
def create_category (category : CategoryCreate) (now : String) (_user : UserCtx) :
    CategoryResponse :=
  ⟨"550e8400-e29b-41d4-a716-446655440000", category.name, category.parentId,
   pyOrNat category.order 0, now, now⟩

/-- `save_category_tree` (source lines 640-659): the response is a fixed
constant, the submitted forest is ignored. -/
def save_category_tree (_categories : List CategoryTreeNode) (_user : UserCtx) :
    TreeSaveResponse :=
  ⟨["550e8400-e29b-41d4-a716-446655440001", "550e8400-e29b-41d4-a716-446655440002"],
   ["550e8400-e29b-41d4-a716-446655440000"],
   ["550e8400-e29b-41d4-a716-446655440003"]⟩

/-- `update_category` (source lines 690-709): echoes the path id and body
fields (with Python `or` defaults) into a fixed template. -/
def update_category (category_id : String) (category : CategoryUpdate) (now : String)
    (_user : UserCtx) : CategoryResponse :=
  ⟨category_id, pyOrStr category.name "Updated Category", category.parentId,
   pyOrNat category.order 0, "2023-07-15T12:00:00Z", now⟩

/-- `patch_category` (source lines 740-759): echoes the path id and body
fields (with Python `or` defaults, default order 1) into a fixed template. -/
def patch_category (category_id : String) (patch : CategoryPatch) (now : String)
    (_user : UserCtx) : CategoryResponse :=
  ⟨category_id, pyOrStr patch.name "Patched Category", patch.parentId,
   pyOrNat patch.order 1, "2023-07-15T12:00:00Z", now⟩

/-- `delete_category` (source lines 786-805): always succeeds, echoes the id,
reports no children. -/
def delete_category (category_id : String) (_user : UserCtx) : DeleteResponse :=
  ⟨true, category_id, false, 0⟩

/-- The user context every accepted request resolves to. -/
def mockUser : UserCtx := ⟨"user_2wUsqGRXsrr3oD5dsS8zJtGNXN4"⟩

end Api

namespace Recon

/-!
Modelled from the spec: the repository ships only mock handlers for
`PUT /api/categories/tree` (the handler body returns a constant), so the
tree-reconciliation engine — Tree Normalizer, Diff Engine and
Reconciler/Applier of spec.md §4 — is missing from the repository and is
modelled here from the spec's words. Ids are modelled as naturals; fresh
ids for id-less submitted nodes are minted above the maximum persisted id.
-/

/-- Modelled from the spec: a persisted `CategoryRecord` row
(`{id, name, parentId, order}`; timestamps carry no reconciliation
meaning and are omitted). -/
structure CategoryRecord where
  id : Nat
  name : String
  parentId : Option Nat
  order : Nat
deriving DecidableEq, Repr

/-- Modelled from the spec: a submitted tree node
`{id?, name, order, children[]}`; absence of `id` signals creation intent. -/
inductive STree where
  | node (id : Option Nat) (name : String) (ord : Nat) (children : List STree)

/-- Modelled from the spec: a normalized flat record produced by the Tree
Normalizer — stored `id` or freshly minted key, creation flag, and the
`{name, parentId, order}` payload. -/
structure NormRec where
  id : Nat
  isNew : Bool
  name : String
  parentId : Option Nat
  order : Nat
deriving DecidableEq, Repr

/-- Modelled from the spec: `name` non-empty within the length bound
(1..100, the bound declared by the repository's schema), checked over a
whole forest. -/
def namesOkL : List STree → Bool
  | [] => true
  | .node _ n _ cs :: ts =>
      (decide (1 ≤ n.length) && decide (n.length ≤ 100)) && namesOkL cs && namesOkL ts

/-- Modelled from the spec: the visited-set walk from root to each node; a
node whose stored id already occurs among its ancestors' ids is a cycle. -/
def noCycleL (anc : List Nat) : List STree → Bool
  | [] => true
  | .node (some i) _ _ cs :: ts =>
      !(anc.contains i) && noCycleL (i :: anc) cs && noCycleL anc ts
  | .node none _ _ cs :: ts => noCycleL anc cs && noCycleL anc ts

/-- Modelled from the spec: validation performed by the Tree Normalizer. -/
def validateTree (ts : List STree) : Bool :=
  namesOkL ts && noCycleL [] ts

/-- The explicit (stored) ids occurring in a submitted forest. -/
def idsL : List STree → List Nat
  | [] => []
  | .node (some i) _ _ cs :: ts => i :: (idsL cs ++ idsL ts)
  | .node none _ _ cs :: ts => idsL cs ++ idsL ts

/-- Modelled from the spec: flatten a forest into normalized records, in
encounter (preorder) order, minting fresh ids for id-less nodes from a
counter `c`; returns the records and the next counter value. -/
def normL (parent : Option Nat) (c : Nat) : List STree → List NormRec × Nat
  | [] => ([], c)
  | .node (some i) n o cs :: ts =>
      let rc := normL (some i) c cs
      let rt := normL parent rc.2 ts
      (⟨i, false, n, parent, o⟩ :: (rc.1 ++ rt.1), rt.2)
  | .node none n o cs :: ts =>
      let rc := normL (some c) (c + 1) cs
      let rt := normL parent rc.2 ts
      (⟨c, true, n, parent, o⟩ :: (rc.1 ++ rt.1), rt.2)

/-- The largest persisted id (0 when the store is empty). -/
def maxId (persisted : List CategoryRecord) : Nat :=
  persisted.foldr (fun p m => max p.id m) 0

/-- Modelled from the spec: normalize a submitted forest against a
persisted state, minting fresh ids strictly above every persisted id. -/
def normalizeForest (persisted : List CategoryRecord) (ts : List STree) : List NormRec :=
  (normL none (maxId persisted + 1) ts).1

/-- Look up a persisted record by id. -/
def findRec (persisted : List CategoryRecord) (i : Nat) : Option CategoryRecord :=
  persisted.find? (fun p => p.id == i)

/-- Modelled from the spec: field-by-field inequality of a normalized
record against its stored row (`{name, parentId, order}`); `false` when no
stored row carries the id. -/
def changed (persisted : List CategoryRecord) (r : NormRec) : Bool :=
  match findRec persisted r.id with
  | some p => p.name != r.name || p.parentId != r.parentId || p.order != r.order
  | none => false

/-- The three ID lists of the batch-save response. -/
structure DiffResult where
  created : List Nat
  updated : List Nat
  deleted : List Nat
deriving DecidableEq, Repr

/-- Modelled from the spec: the Diff Engine — `created` are incoming nodes
with no submitted id (minted fresh), `updated` are incoming nodes whose id
is persisted and whose fields differ, `deleted` are persisted ids absent
from the incoming set's ids. -/
def diff (inc : List NormRec) (persisted : List CategoryRecord) : DiffResult :=
  { created := (inc.filter (fun r => r.isNew)).map (fun r => r.id)
    updated := (inc.filter (fun r => !r.isNew && changed persisted r)).map (fun r => r.id)
    deleted := (persisted.filter (fun p => !(inc.any (fun r => r.id == p.id)))).map
                 (fun p => p.id) }

/-- Forget the creation flag of a normalized record. -/
def recOfNorm (r : NormRec) : CategoryRecord :=
  ⟨r.id, r.name, r.parentId, r.order⟩

/-- Modelled from the spec: the rows the Applier writes — the creates and
the updates of the batch. -/
def writeRows (persisted : List CategoryRecord) (ts : List STree) : List CategoryRecord :=
  ((normalizeForest persisted ts).filter (fun r => r.isNew || changed persisted r)).map recOfNorm

/-- Insert-or-replace one row of the store by id. -/
def upsert (st : List CategoryRecord) (r : CategoryRecord) : List CategoryRecord :=
  if st.any (fun p => p.id == r.id) then st.map (fun p => if p.id == r.id then r else p)
  else st ++ [r]

/-- Modelled from the spec: write the batch rows one at a time; the store
(parametrized by the rows it `rejects`) may refuse any single row, which
aborts the whole application. -/
def applyRows (rejects : CategoryRecord → Bool) (st : List CategoryRecord) :
    List CategoryRecord → Option (List CategoryRecord)
  | [] => some st
  | r :: rs => if rejects r then none else applyRows rejects (upsert st r) rs

/-- Modelled from the spec: `applyBatch` — write all creates/updates, then
drop every row whose id was diffed as deleted; `none` on store rejection. -/
def applyBatch (rejects : CategoryRecord → Bool) (st rows : List CategoryRecord)
    (deleteIds : List Nat) : Option (List CategoryRecord) :=
  (applyRows rejects st rows).map (fun st1 => st1.filter (fun p => !(deleteIds.contains p.id)))

/-- The failure taxonomy of the batch save that the model distinguishes. -/
inductive SaveError where
  | validation
  | store
deriving DecidableEq, Repr

/-- Modelled from the spec: the whole batch-save endpoint — validate
(name bounds, cycle walk), normalize, diff, then apply transactionally;
returns the three ID lists and the new stored state, or an error. -/
def saveTree (rejects : CategoryRecord → Bool) (persisted : List CategoryRecord)
    (ts : List STree) : Except SaveError (DiffResult × List CategoryRecord) :=
  if validateTree ts then
    match applyBatch rejects persisted (writeRows persisted ts)
        (diff (normalizeForest persisted ts) persisted).deleted with
    | some st => .ok (diff (normalizeForest persisted ts) persisted, st)
    | none => .error .store
  else .error .validation

/-- The stored state observable after a batch-save call: the committed
state on success, the untouched previous state on any error (rollback). -/
def saveTreeState (rejects : CategoryRecord → Bool) (persisted : List CategoryRecord)
    (ts : List STree) : List CategoryRecord :=
  match saveTree rejects persisted ts with
  | .ok x => x.2
  | .error _ => persisted

/-- The stored state equals the submitted forest: every normalized record
carries a stored id whose persisted row agrees field-by-field, and every
persisted row is submitted. -/
def stateEq (persisted : List CategoryRecord) (inc : List NormRec) : Bool :=
  inc.all (fun r => !r.isNew &&
    (match findRec persisted r.id with
     | some p => p.name == r.name && p.parentId == r.parentId && p.order == r.order
     | none => false)) &&
  persisted.all (fun p => inc.any (fun r => r.id == p.id))

/-- The persisted ids retained by a submission: submitted with an id,
unchanged, and present in the store. -/
def retainedIds (persisted : List CategoryRecord) (ts : List STree) : List Nat :=
  ((normalizeForest persisted ts).filter
    (fun r => !r.isNew && !(changed persisted r) && persisted.any (fun p => p.id == r.id))).map
    (fun r => r.id)

/-- Every explicit id submitted in the forest refers to a persisted row. -/
def idsKnownL (persisted : List CategoryRecord) (ts : List STree) : Bool :=
  (idsL ts).all (fun i => persisted.any (fun p => p.id == i))

/-- Some node of the forest has a stored id that already occurs in its own
ancestor chain `anc` — the submitted tree contains a cycle. -/
inductive SelfAncL : List Nat → List STree → Prop where
  | here (anc : List Nat) (i : Nat) (n : String) (o : Nat) (cs ts : List STree) :
      i ∈ anc → SelfAncL anc (.node (some i) n o cs :: ts)
  | inChild (anc : List Nat) (i : Nat) (n : String) (o : Nat) (cs ts : List STree) :
      SelfAncL (i :: anc) cs → SelfAncL anc (.node (some i) n o cs :: ts)
  | inChildNone (anc : List Nat) (n : String) (o : Nat) (cs ts : List STree) :
      SelfAncL anc cs → SelfAncL anc (.node none n o cs :: ts)
  | inTail (anc : List Nat) (t : STree) (ts : List STree) :
      SelfAncL anc ts → SelfAncL anc (t :: ts)

/-- `IsDesc persisted a d`: the persisted row with id `d` is a descendant
of the row with id `a` through stored `parentId` links. -/
inductive IsDesc (persisted : List CategoryRecord) : Nat → Nat → Prop where
  | child (a : Nat) (r : CategoryRecord) :
      r ∈ persisted → r.parentId = some a → IsDesc persisted a r.id
  | step (a b : Nat) (r : CategoryRecord) :
      IsDesc persisted a b → r ∈ persisted → r.parentId = some b → IsDesc persisted a r.id

end Recon

namespace Recon

/-- The normalizer's fresh-id counter never decreases. -/
theorem normL_counter_le : ∀ (parent : Option Nat) (c : Nat) (ts : List STree),
    c ≤ (normL parent c ts).2
  | _, c, [] => by simp [normL]
  | parent, c, .node (some i) n o cs :: ts => by
      have h1 := normL_counter_le (some i) c cs
      have h2 := normL_counter_le parent (normL (some i) c cs).2 ts
      simp only [normL]
      omega
  | parent, c, .node none n o cs :: ts => by
      have h1 := normL_counter_le (some c) (c + 1) cs
      have h2 := normL_counter_le parent (normL (some c) (c + 1) cs).2 ts
      simp only [normL]
      omega

/-- Every normalized record flagged as new carries a freshly minted id,
at or above the starting counter. -/
theorem normL_new_ge : ∀ (parent : Option Nat) (c : Nat) (ts : List STree),
    ∀ r ∈ (normL parent c ts).1, r.isNew = true → c ≤ r.id
  | _, c, [], r, hr, _ => by simp [normL] at hr
  | parent, c, .node (some i) n o cs :: ts, r, hr, hnew => by
      simp only [normL, List.mem_cons, List.mem_append] at hr
      rcases hr with rfl | hr | hr
      · simp at hnew
      · exact normL_new_ge (some i) c cs r hr hnew
      · have := normL_new_ge parent (normL (some i) c cs).2 ts r hr hnew
        have hm := normL_counter_le (some i) c cs
        omega
  | parent, c, .node none n o cs :: ts, r, hr, hnew => by
      simp only [normL, List.mem_cons, List.mem_append] at hr
      rcases hr with rfl | hr | hr
      · simp
      · have := normL_new_ge (some c) (c + 1) cs r hr hnew
        omega
      · have := normL_new_ge parent (normL (some c) (c + 1) cs).2 ts r hr hnew
        have hm := normL_counter_le (some c) (c + 1) cs
        omega

/-- Every normalized record not flagged as new carries an id submitted
explicitly somewhere in the forest. -/
theorem normL_old_mem : ∀ (parent : Option Nat) (c : Nat) (ts : List STree),
    ∀ r ∈ (normL parent c ts).1, r.isNew = false → r.id ∈ idsL ts
  | _, c, [], r, hr, _ => by simp [normL] at hr
  | parent, c, .node (some i) n o cs :: ts, r, hr, hold => by
      simp only [normL, List.mem_cons, List.mem_append] at hr
      simp only [idsL, List.mem_cons, List.mem_append]
      rcases hr with rfl | hr | hr
      · left; rfl
      · exact Or.inr (Or.inl (normL_old_mem (some i) c cs r hr hold))
      · exact Or.inr (Or.inr (normL_old_mem parent (normL (some i) c cs).2 ts r hr hold))
  | parent, c, .node none n o cs :: ts, r, hr, hold => by
      simp only [normL, List.mem_cons, List.mem_append] at hr
      simp only [idsL, List.mem_append]
      rcases hr with rfl | hr | hr
      · simp at hold
      · exact Or.inl (normL_old_mem (some c) (c + 1) cs r hr hold)
      · exact Or.inr (normL_old_mem parent (normL (some c) (c + 1) cs).2 ts r hr hold)

/-- Every persisted id is bounded by `maxId`. -/
theorem mem_le_maxId : ∀ (persisted : List CategoryRecord), ∀ p ∈ persisted, p.id ≤ maxId persisted
  | [], p, hp => by simp at hp
  | q :: rest, p, hp => by
      rcases List.mem_cons.mp hp with rfl | hp
      · simp [maxId]
      · have := mem_le_maxId rest p hp
        simp only [maxId, List.foldr_cons] at *
        omega

end Recon

namespace Recon

/-- If the store rejects any row of the batch, writing the rows fails. -/
theorem applyRows_rejected (rejects : CategoryRecord → Bool) :
    ∀ (rows : List CategoryRecord) (st : List CategoryRecord),
      (∃ r ∈ rows, rejects r = true) → applyRows rejects st rows = none
  | [], _, h => by simp at h
  | r :: rs, st, h => by
      by_cases hr : rejects r = true
      · simp [applyRows, hr]
      · simp only [applyRows, hr, if_neg, Bool.false_eq_true, ite_false]
        rcases h with ⟨q, hq, hqr⟩
        rcases List.mem_cons.mp hq with rfl | hq
        · exact absurd hqr hr
        · exact applyRows_rejected rejects rs (upsert st r) ⟨q, hq, hqr⟩

/-- A forest containing a node whose id occurs in its own ancestor chain
fails the normalizer's visited-set walk. -/
theorem selfAnc_noCycle_false (anc : List Nat) (ts : List STree)
    (h : SelfAncL anc ts) : noCycleL anc ts = false := by
  induction h with
  | here anc i n o cs ts hmem => simp [noCycleL, List.elem_iff, hmem]
  | inChild anc i n o cs ts _ ih => simp [noCycleL, ih]
  | inChildNone anc n o cs ts _ ih => simp [noCycleL, ih]
  | inTail anc t ts _ ih =>
      cases t with
      | node oid n o cs => cases oid <;> simp [noCycleL, ih]

/-- A stored descendant is itself a persisted row. -/
theorem isDesc_mem (persisted : List CategoryRecord) (a d : Nat)
    (h : IsDesc persisted a d) : ∃ r ∈ persisted, r.id = d := by
  induction h with
  | child r hmem hpar => exact ⟨r, hmem, rfl⟩
  | step b r hd hmem hpar => exact ⟨r, hmem, rfl⟩

/-- When the stored state equals the submission, no incoming record is new
and none differs from its stored row. -/
theorem stateEq_rows (persisted : List CategoryRecord) (inc : List NormRec)
    (he : stateEq persisted inc = true) :
    ∀ r ∈ inc, r.isNew = false ∧ changed persisted r = false := by
  intro r hr
  simp only [stateEq, List.all_eq_true, Bool.and_eq_true] at he
  obtain ⟨hnew, hmatch⟩ := he.1 r hr
  refine ⟨by simpa using hnew, ?_⟩
  cases hfind : findRec persisted r.id with
  | none => rw [hfind] at hmatch; simp at hmatch
  | some p =>
      rw [hfind] at hmatch
      simp only [Bool.and_eq_true, beq_iff_eq] at hmatch
      obtain ⟨⟨h1, h2⟩, h3⟩ := hmatch
      simp [changed, hfind, h1, h2, h3]

/-- When the stored state equals the submission, every persisted id is
submitted. -/
theorem stateEq_covers (persisted : List CategoryRecord) (inc : List NormRec)
    (he : stateEq persisted inc = true) :
    ∀ p ∈ persisted, inc.any (fun r => r.id == p.id) = true := by
  intro p hp
  simp only [stateEq, List.all_eq_true, Bool.and_eq_true] at he
  exact he.2 p hp

end Recon

namespace Recon

/-- Every created id is freshly minted, strictly above every persisted id. -/
theorem diff_created_gt (persisted : List CategoryRecord) (ts : List STree) :
    ∀ i ∈ (diff (normalizeForest persisted ts) persisted).created, maxId persisted < i := by
  intro i hi
  simp only [diff, List.mem_map, List.mem_filter, normalizeForest] at hi
  obtain ⟨r, ⟨hr, hnew⟩, rfl⟩ := hi
  have := normL_new_ge none (maxId persisted + 1) ts r hr hnew
  omega

/-- Every updated id is a persisted id. -/
theorem diff_updated_persisted (inc : List NormRec) (persisted : List CategoryRecord) :
    ∀ i ∈ (diff inc persisted).updated, ∃ p ∈ persisted, p.id = i := by
  intro i hi
  simp only [diff, List.mem_map, List.mem_filter, Bool.and_eq_true] at hi
  obtain ⟨r, ⟨hr, hnew, hch⟩, rfl⟩ := hi
  cases hfind : findRec persisted r.id with
  | none => rw [changed, hfind] at hch; cases hch
  | some p =>
      refine ⟨p, List.mem_of_find?_eq_some hfind, ?_⟩
      have := List.find?_some hfind
      simpa using this

/-- Every updated id is an incoming id. -/
theorem diff_updated_inc (inc : List NormRec) (persisted : List CategoryRecord) :
    ∀ i ∈ (diff inc persisted).updated, ∃ r ∈ inc, r.id = i := by
  intro i hi
  simp only [diff, List.mem_map, List.mem_filter, Bool.and_eq_true] at hi
  obtain ⟨r, ⟨hr, _⟩, rfl⟩ := hi
  exact ⟨r, hr, rfl⟩

/-- Every deleted id is a persisted id that no incoming record carries. -/
theorem diff_deleted_spec (inc : List NormRec) (persisted : List CategoryRecord) :
    ∀ i ∈ (diff inc persisted).deleted,
      (∃ p ∈ persisted, p.id = i) ∧ ∀ r ∈ inc, r.id ≠ i := by
  intro i hi
  simp only [diff, List.mem_map, List.mem_filter] at hi
  obtain ⟨p, ⟨hp, hcond⟩, rfl⟩ := hi
  refine ⟨⟨p, hp, rfl⟩, ?_⟩
  intro r hr hid
  simp only [Bool.not_eq_true'] at hcond
  have : (inc.any fun q => q.id == p.id) = true := List.any_eq_true.mpr ⟨r, hr, by simp [hid]⟩
  rw [this] at hcond
  cases hcond

/-- A successful save returns exactly the Diff Engine's three lists. -/
theorem saveTree_ok_resp (rejects : CategoryRecord → Bool)
    (persisted : List CategoryRecord) (ts : List STree) (resp : DiffResult)
    (st : List CategoryRecord) (h : saveTree rejects persisted ts = .ok (resp, st)) :
    resp = diff (normalizeForest persisted ts) persisted := by
  unfold saveTree at h
  by_cases hv : validateTree ts = true
  · rw [if_pos hv] at h
    split at h
    · simp only [Except.ok.injEq, Prod.mk.injEq] at h
      exact h.1.symm
    · cases h
  · rw [if_neg hv] at h
    cases h

end Recon

/-- C1 (counterexample): `get_category` echoes the requested id, so two
requests with different inputs produce different responses — the claim that
every handler's response is independent of the request input is false. -/
theorem get_category_input_dependent_cex :
    Api.get_category "a" Api.mockUser ≠ Api.get_category "b" Api.mockUser := by
  decide

/-- C1 (amended): `get_category_tree` and `save_category_tree` do return
identical data for any pair of requests, and `get_categories` depends only
on the `format` parameter; but the remaining handlers echo request input
(path id, body fields) into otherwise fixed templates, so their outputs
vary with the input. No handler consults stored state. -/
theorem handlers_fixed_templates :
    (∀ (c₁ c₂ : List Api.CategoryTreeNode) (u₁ u₂ : Api.UserCtx),
        Api.save_category_tree c₁ u₁ = Api.save_category_tree c₂ u₂) ∧
    (∀ u₁ u₂ : Api.UserCtx, Api.get_category_tree u₁ = Api.get_category_tree u₂) ∧
    (∀ (f : Option Api.FormatEnum) (u₁ u₂ : Api.UserCtx),
        Api.get_categories f u₁ = Api.get_categories f u₂) ∧
    (∀ (cid : String) (u : Api.UserCtx), (Api.get_category cid u).id = cid) ∧
    (∀ (c : Api.CategoryCreate) (now : String) (u : Api.UserCtx),
        (Api.create_category c now u).name = c.name ∧
          (Api.create_category c now u).parentId = c.parentId) ∧
    (∀ (cid : String) (c : Api.CategoryUpdate) (now : String) (u : Api.UserCtx),
        (Api.update_category cid c now u).id = cid) ∧
    (∀ (cid : String) (p : Api.CategoryPatch) (now : String) (u : Api.UserCtx),
        (Api.patch_category cid p now u).id = cid) ∧
    (∀ (cid : String) (u : Api.UserCtx), (Api.delete_category cid u).deleted = cid) :=
  ⟨fun _ _ _ _ => rfl, fun _ _ => rfl, fun _ _ _ => rfl, fun _ _ => rfl,
   fun _ _ _ => ⟨rfl, rfl⟩, fun _ _ _ _ => rfl, fun _ _ _ _ => rfl, fun _ _ => rfl⟩

/-- C6 (counterexample): a request carrying a credential different from the
documented `API_KEY` is not rejected — `get_current_user` accepts any
non-empty `Authorization` value and resolves it to the fixed user. -/
theorem invalid_key_accepted_cex :
    Api.get_current_user (some "not-the-key") = .ok Api.mockUser ∧
      "not-the-key" ≠ Api.API_KEY := by
  refine ⟨?_, by decide⟩
  rfl

/-- C6 (amended): only a missing (or empty) `Authorization` header fails
with 401; any non-empty credential — valid or not — is accepted before the
handler body runs and resolves to the fixed user id. -/
theorem get_current_user_amended :
    (∀ k : Option String, (k = none ∨ k = some "") → Api.get_current_user k = .error 401) ∧
    (∀ s : String, s ≠ "" → Api.get_current_user (some s) = .ok Api.mockUser) := by
  constructor
  · rintro k (rfl | rfl)
    · rfl
    · rfl
  · intro s hs
    have : s.isEmpty = false := by
      cases h : s.isEmpty
      · rfl
      · exact absurd ((String.isEmpty_iff s).mp h) hs
    simp [Api.get_current_user, this, Api.mockUser]

/-- C6 (witness): the amended theorem applied at a missing header and at
the concrete non-empty credential `"abc"`. -/
theorem get_current_user_amended_witness :
    Api.get_current_user none = .error 401 ∧
      Api.get_current_user (some "abc") = .ok Api.mockUser :=
  ⟨get_current_user_amended.1 none (Or.inl rfl),
   get_current_user_amended.2 "abc" (by decide)⟩

/-- C10: `DELETE /api/categories/{id}` always reports success, echoes the
supplied id, and reports no children — for every id and every
authenticated request, never a 404. -/
theorem delete_category_always_succeeds (category_id : String) (u : Api.UserCtx) :
    Api.delete_category category_id u =
      { success := true, deleted := category_id, hasChildren := false, childCount := 0 } := rfl

namespace Recon

/-- C4: a submitted forest in which some node's stored id occurs in its own
ancestor chain is rejected with a ValidationError, and the stored state is
left untouched. -/
theorem save_rejects_cycle (rejects : CategoryRecord → Bool)
    (persisted : List CategoryRecord) (ts : List STree) (h : SelfAncL [] ts) :
    saveTree rejects persisted ts = .error .validation ∧
      saveTreeState rejects persisted ts = persisted := by
  have hnc := selfAnc_noCycle_false [] ts h
  have hv : validateTree ts = false := by simp [validateTree, hnc]
  exact ⟨by simp [saveTree, hv], by simp [saveTreeState, saveTree, hv]⟩

/-- C4 (witness): a two-level forest whose inner node repeats the stored id
of its own parent is rejected and mutates nothing. -/
theorem save_rejects_cycle_witness :
    saveTree (fun _ => false) [] [.node (some 1) "A" 0 [.node (some 1) "B" 0 []]] =
        .error .validation ∧
      saveTreeState (fun _ => false) [] [.node (some 1) "A" 0 [.node (some 1) "B" 0 []]] = [] :=
  save_rejects_cycle _ _ _
    (SelfAncL.inChild [] 1 "A" 0 [STree.node (some 1) "B" 0 []] []
      (SelfAncL.here [1] 1 "B" 0 [] [] (by simp)))

/-- C7: if the store rejects any single row of the batch, the observable
stored state after the call is exactly the state before it. -/
theorem save_atomic_on_rejection (rejects : CategoryRecord → Bool)
    (persisted : List CategoryRecord) (ts : List STree)
    (h : ∃ r ∈ writeRows persisted ts, rejects r = true) :
    saveTreeState rejects persisted ts = persisted := by
  by_cases hv : validateTree ts = true
  · have hrows := applyRows_rejected rejects (writeRows persisted ts) persisted h
    have happ : applyBatch rejects persisted (writeRows persisted ts)
        (diff (normalizeForest persisted ts) persisted).deleted = none := by
      simp [applyBatch, hrows]
    simp [saveTreeState, saveTree, hv, happ]
  · simp [saveTreeState, saveTree, hv]

/-- C7 (witness): a store rejecting every row leaves an empty store empty
when a one-node forest is submitted. -/
theorem save_atomic_on_rejection_witness :
    saveTreeState (fun _ => true) [] [.node none "A" 0 []] = [] :=
  save_atomic_on_rejection _ _ _
    ⟨⟨1, "A", none, 0⟩,
     by simp [writeRows, normalizeForest, normL, maxId, recOfNorm], rfl⟩

/-- C8: submitting an empty forest against a non-empty store deletes every
persisted category: `deleted` is exactly the list of all persisted ids,
`created` and `updated` are empty, and the resulting state is empty. -/
theorem save_empty_tree_deletes_all (rejects : CategoryRecord → Bool)
    (persisted : List CategoryRecord) (h : persisted ≠ []) :
    saveTree rejects persisted [] =
      .ok ({ created := [], updated := [],
             deleted := persisted.map (fun p => p.id) }, []) := by
  have hfilter : persisted.filter
      (fun p => !((persisted.map (fun q => q.id)).contains p.id)) = [] := by
    rw [List.filter_eq_nil_iff]
    intro p hp
    simp [List.contains, List.elem_iff]
    exact ⟨p, hp, rfl⟩
  simp [saveTree, validateTree, namesOkL, noCycleL, normalizeForest, normL, diff,
    writeRows, applyBatch, applyRows, hfilter]
  exact fun a ha => ⟨a, ha, rfl⟩

/-- C8 (witness): the theorem applied at a one-row store. -/
theorem save_empty_tree_deletes_all_witness :
    saveTree (fun _ => false) [⟨1, "A", none, 0⟩] [] =
      .ok ({ created := [], updated := [], deleted := [1] }, []) :=
  save_empty_tree_deletes_all _ _ (by simp)

end Recon

namespace Recon

/-- C2 (counterexample): re-submitting a just-saved tree does not in
general return three empty lists — a tree whose node carries no id mints a
fresh id on every save, so the second call reports a new creation and a
deletion. -/
theorem save_idempotent_cex :
    saveTree (fun _ => false) [] [.node none "A" 0 []] =
        .ok ({ created := [1], updated := [], deleted := [] }, [⟨1, "A", none, 0⟩]) ∧
      saveTree (fun _ => false) [⟨1, "A", none, 0⟩] [.node none "A" 0 []] =
        .ok ({ created := [2], updated := [], deleted := [1] }, [⟨2, "A", none, 0⟩]) ∧
      ({ created := [2], updated := [], deleted := [1] } : DiffResult) ≠
        { created := [], updated := [], deleted := [] } := by
  refine ⟨?_, ?_, by decide⟩ <;>
    simp [saveTree, validateTree, namesOkL, noCycleL, normalizeForest, normL, maxId, diff,
      changed, findRec, writeRows, applyBatch, applyRows, upsert, recOfNorm] <;>
    decide

/-- C2 (amended): submitting a tree `T` when the stored state already
equals `T` — every node submitted with a stored id whose persisted row
agrees field-by-field, every persisted row submitted — returns empty
`created`/`updated`/`deleted` and leaves the state unchanged. -/
theorem save_idempotent (rejects : CategoryRecord → Bool)
    (persisted : List CategoryRecord) (ts : List STree)
    (hv : validateTree ts = true)
    (he : stateEq persisted (normalizeForest persisted ts) = true) :
    saveTree rejects persisted ts =
      .ok ({ created := [], updated := [], deleted := [] }, persisted) := by
  have hrows := stateEq_rows persisted _ he
  have hcov := stateEq_covers persisted _ he
  have hcreated : (normalizeForest persisted ts).filter (fun r => r.isNew) = [] := by
    rw [List.filter_eq_nil_iff]; intro r hr; simp [(hrows r hr).1]
  have hupd : (normalizeForest persisted ts).filter
      (fun r => !r.isNew && changed persisted r) = [] := by
    rw [List.filter_eq_nil_iff]; intro r hr; simp [(hrows r hr).2]
  have hdel : persisted.filter
      (fun p => !((normalizeForest persisted ts).any fun r => r.id == p.id)) = [] := by
    rw [List.filter_eq_nil_iff]; intro p hp; simp [hcov p hp]
  have hdiff : diff (normalizeForest persisted ts) persisted =
      { created := [], updated := [], deleted := [] } := by
    simp [diff, hcreated, hupd, hdel]
  have hwrite : writeRows persisted ts = [] := by
    rw [writeRows]
    have : (normalizeForest persisted ts).filter
        (fun r => r.isNew || changed persisted r) = [] := by
      rw [List.filter_eq_nil_iff]; intro r hr
      simp [(hrows r hr).1, (hrows r hr).2]
    rw [this]; rfl
  have happ : applyBatch rejects persisted (writeRows persisted ts) [] = some persisted := by
    rw [hwrite]
    simp [applyBatch, applyRows]
  simp [saveTree, hv, hdiff, happ]

/-- C2 (witness): the amended theorem applied to a one-node tree submitted
with the stored id and unchanged fields. -/
theorem save_idempotent_witness :
    saveTree (fun _ => false) [⟨1, "A", none, 0⟩] [.node (some 1) "A" 0 []] =
      .ok ({ created := [], updated := [], deleted := [] }, [⟨1, "A", none, 0⟩]) :=
  save_idempotent _ _ _
    (by simp [validateTree, namesOkL, noCycleL]; decide)
    (by simp [stateEq, normalizeForest, normL, maxId, findRec])

end Recon

namespace Recon

/-- C3: the three ID lists of a successful batch save are pairwise
disjoint: created ids are freshly minted above every persisted id, updated
ids are persisted ids still submitted, deleted ids are persisted ids no
longer submitted. -/
theorem save_lists_disjoint (rejects : CategoryRecord → Bool)
    (persisted : List CategoryRecord) (ts : List STree) (resp : DiffResult)
    (st : List CategoryRecord) (h : saveTree rejects persisted ts = .ok (resp, st)) :
    resp.created.Disjoint resp.updated ∧ resp.created.Disjoint resp.deleted ∧
      resp.updated.Disjoint resp.deleted := by
  have hresp := saveTree_ok_resp rejects persisted ts resp st h
  subst hresp
  refine ⟨?_, ?_, ?_⟩
  · intro i hic hiu
    have h1 := diff_created_gt persisted ts i hic
    obtain ⟨p, hp, rfl⟩ := diff_updated_persisted _ persisted i hiu
    have := mem_le_maxId persisted p hp
    omega
  · intro i hic hid
    have h1 := diff_created_gt persisted ts i hic
    obtain ⟨⟨p, hp, rfl⟩, _⟩ := diff_deleted_spec _ persisted i hid
    have := mem_le_maxId persisted p hp
    omega
  · intro i hiu hid
    obtain ⟨r, hr, hrid⟩ := diff_updated_inc _ persisted i hiu
    obtain ⟨_, hnone⟩ := diff_deleted_spec _ persisted i hid
    exact hnone r hr hrid

/-- C3 (witness): the theorem applied to a concrete save that creates,
updates and deletes at once: store `{1 ↦ A, 3 ↦ C}`, submission keeps 1
with a new name, drops 3, and adds an id-less node. -/
theorem save_lists_disjoint_witness :
    ([4] : List Nat).Disjoint ([1] : List Nat) ∧
      ([4] : List Nat).Disjoint ([3] : List Nat) ∧
      ([1] : List Nat).Disjoint ([3] : List Nat) :=
  save_lists_disjoint (fun _ => false)
    [⟨1, "A", none, 0⟩, ⟨3, "C", none, 1⟩]
    [.node (some 1) "A2" 0 [], .node none "B" 1 []]
    { created := [4], updated := [1], deleted := [3] }
    [⟨1, "A2", none, 0⟩, ⟨4, "B", none, 1⟩]
    (by simp [saveTree, validateTree, namesOkL, noCycleL, normalizeForest, normL, maxId,
        diff, changed, findRec, writeRows, applyBatch, applyRows, upsert, recOfNorm] <;>
      decide)

end Recon

namespace Recon

/-- A persisted row whose id is nowhere in the submitted forest is diffed
as deleted: minted ids are too large to collide with it and retained ids
are submitted explicitly. -/
theorem deleted_of_absent (persisted : List CategoryRecord) (ts : List STree)
    (p : CategoryRecord) (hp : p ∈ persisted) (habs : p.id ∉ idsL ts) :
    p.id ∈ (diff (normalizeForest persisted ts) persisted).deleted := by
  simp only [diff, List.mem_map, List.mem_filter]
  refine ⟨p, ⟨hp, ?_⟩, rfl⟩
  simp only [Bool.not_eq_true']
  cases hany : (normalizeForest persisted ts).any fun r => r.id == p.id with
  | false => rfl
  | true =>
      exfalso
      obtain ⟨r, hr, hrp⟩ := List.any_eq_true.mp hany
      have hrid : r.id = p.id := by simpa using hrp
      cases hnew : r.isNew with
      | true =>
          have h1 := normL_new_ge none (maxId persisted + 1) ts r
            (by simpa [normalizeForest] using hr) hnew
          have h2 := mem_le_maxId persisted p hp
          omega
      | false =>
          have h1 := normL_old_mem none (maxId persisted + 1) ts r
            (by simpa [normalizeForest] using hr) hnew
          rw [hrid] at h1
          exact habs h1

/-- C5 (amended): when a persisted node is absent from the submitted
forest, its id is in `deleted`, and so is the id of every stored
descendant that is likewise absent from the submission (a descendant that
is re-submitted elsewhere in the new tree is kept, not deleted). -/
theorem save_cascade_delete (rejects : CategoryRecord → Bool)
    (persisted : List CategoryRecord) (ts : List STree) (resp : DiffResult)
    (st : List CategoryRecord) (h : saveTree rejects persisted ts = .ok (resp, st))
    (a : CategoryRecord) (ha : a ∈ persisted) (habs : a.id ∉ idsL ts) :
    a.id ∈ resp.deleted ∧
      ∀ d : Nat, IsDesc persisted a.id d → d ∉ idsL ts → d ∈ resp.deleted := by
  have hresp := saveTree_ok_resp rejects persisted ts resp st h
  subst hresp
  refine ⟨deleted_of_absent persisted ts a ha habs, ?_⟩
  intro d hdesc hdabs
  obtain ⟨r, hr, rfl⟩ := isDesc_mem persisted a.id d hdesc
  exact deleted_of_absent persisted ts r hr hdabs

/-- C5 (witness): store `{1 ↦ A, 2 ↦ B (child of 1)}`, submission replaces
everything with one id-less node: node 1 and its stored descendant 2 are
both deleted. -/
theorem save_cascade_delete_witness :
    (1 : Nat) ∈ ({ created := [3], updated := [], deleted := [1, 2] } : DiffResult).deleted ∧
      (2 : Nat) ∈ ({ created := [3], updated := [], deleted := [1, 2] } : DiffResult).deleted :=
  ⟨(save_cascade_delete (fun _ => false)
      [⟨1, "A", none, 0⟩, ⟨2, "B", some 1, 0⟩] [.node none "C" 0 []]
      { created := [3], updated := [], deleted := [1, 2] } [⟨3, "C", none, 0⟩]
      (by simp [saveTree, validateTree, namesOkL, noCycleL, normalizeForest, normL, maxId,
          diff, changed, findRec, writeRows, applyBatch, applyRows, upsert, recOfNorm] <;>
        decide)
      ⟨1, "A", none, 0⟩ (by simp) (by simp [idsL])).1,
   (save_cascade_delete (fun _ => false)
      [⟨1, "A", none, 0⟩, ⟨2, "B", some 1, 0⟩] [.node none "C" 0 []]
      { created := [3], updated := [], deleted := [1, 2] } [⟨3, "C", none, 0⟩]
      (by simp [saveTree, validateTree, namesOkL, noCycleL, normalizeForest, normL, maxId,
          diff, changed, findRec, writeRows, applyBatch, applyRows, upsert, recOfNorm] <;>
        decide)
      ⟨1, "A", none, 0⟩ (by simp) (by simp [idsL])).2
     2 (IsDesc.child 1 ⟨2, "B", some 1, 0⟩ (by simp) rfl) (by simp [idsL])⟩

/-- C5 (counterexample): the claim as stated — node absent implies all its
stored descendants deleted — fails when a descendant is re-submitted: the
store holds `{1 ↦ A, 2 ↦ B (child of 1)}`, the submission keeps node 2 at
the root and drops node 1; node 2 is a stored descendant of the absent
node 1 yet is updated, not deleted. -/
theorem save_cascade_delete_cex :
    saveTree (fun _ => false) [⟨1, "A", none, 0⟩, ⟨2, "B", some 1, 0⟩]
        [.node (some 2) "B" 0 []] =
      .ok ({ created := [], updated := [2], deleted := [1] }, [⟨2, "B", none, 0⟩]) ∧
    (⟨1, "A", none, 0⟩ : CategoryRecord) ∈
      ([⟨1, "A", none, 0⟩, ⟨2, "B", some 1, 0⟩] : List CategoryRecord) ∧
    (1 : Nat) ∉ idsL [.node (some 2) "B" 0 []] ∧
    IsDesc [⟨1, "A", none, 0⟩, ⟨2, "B", some 1, 0⟩] 1 2 ∧
    (2 : Nat) ∉ ({ created := [], updated := [2], deleted := [1] } : DiffResult).deleted := by
  refine ⟨?_, by simp, by simp [idsL], IsDesc.child 1 ⟨2, "B", some 1, 0⟩ (by simp) rfl, by simp⟩
  simp [saveTree, validateTree, namesOkL, noCycleL, normalizeForest, normL, maxId,
    diff, changed, findRec, writeRows, applyBatch, applyRows, upsert, recOfNorm] <;> decide

end Recon

namespace Recon

/-- C9 (amended): when every explicitly submitted id refers to a persisted
row, the union of `created`, `updated` and the retained persisted ids of a
successful save is exactly the id set of the submitted tree after save
(minted ids included). -/
theorem save_complete (rejects : CategoryRecord → Bool)
    (persisted : List CategoryRecord) (ts : List STree) (resp : DiffResult)
    (st : List CategoryRecord) (hk : idsKnownL persisted ts = true)
    (h : saveTree rejects persisted ts = .ok (resp, st)) (i : Nat) :
    (i ∈ resp.created ∨ i ∈ resp.updated ∨ i ∈ retainedIds persisted ts) ↔
      i ∈ (normalizeForest persisted ts).map (fun r => r.id) := by
  have hresp := saveTree_ok_resp rejects persisted ts resp st h
  subst hresp
  constructor
  · rintro (hi | hi | hi)
    · simp only [diff, List.mem_map, List.mem_filter] at hi ⊢
      obtain ⟨r, ⟨hr, _⟩, rfl⟩ := hi
      exact ⟨r, hr, rfl⟩
    · simp only [diff, List.mem_map, List.mem_filter] at hi ⊢
      obtain ⟨r, ⟨hr, _⟩, rfl⟩ := hi
      exact ⟨r, hr, rfl⟩
    · simp only [retainedIds, List.mem_map, List.mem_filter] at hi ⊢
      obtain ⟨r, ⟨hr, _⟩, rfl⟩ := hi
      exact ⟨r, hr, rfl⟩
  · intro hi
    simp only [List.mem_map] at hi
    obtain ⟨r, hr, rfl⟩ := hi
    cases hnew : r.isNew with
    | true =>
        left
        simp only [diff, List.mem_map, List.mem_filter]
        exact ⟨r, ⟨hr, hnew⟩, rfl⟩
    | false =>
        have hid : r.id ∈ idsL ts := normL_old_mem none (maxId persisted + 1) ts r
          (by simpa [normalizeForest] using hr) hnew
        have hkr : (persisted.any fun p => p.id == r.id) = true :=
          (List.all_eq_true.mp hk) r.id hid
        cases hch : changed persisted r with
        | true =>
            right; left
            simp only [diff, List.mem_map, List.mem_filter]
            exact ⟨r, ⟨hr, by simp [hnew, hch]⟩, rfl⟩
        | false =>
            right; right
            simp only [retainedIds, List.mem_map, List.mem_filter]
            exact ⟨r, ⟨hr, by simp [hnew, hch, hkr]⟩, rfl⟩

/-- C9 (witness): store `{1 ↦ A}`, submission renames node 1; the theorem
applied at id 1 — updated on the left, submitted id on the right. -/
theorem save_complete_witness :
    ((1 : Nat) ∈ ({ created := [], updated := [1], deleted := [] } : DiffResult).created ∨
        (1 : Nat) ∈ ({ created := [], updated := [1], deleted := [] } : DiffResult).updated ∨
        (1 : Nat) ∈ retainedIds [⟨1, "A", none, 0⟩] [.node (some 1) "X" 1 []]) ↔
      (1 : Nat) ∈ (normalizeForest [⟨1, "A", none, 0⟩] [.node (some 1) "X" 1 []]).map
        (fun r => r.id) :=
  save_complete (fun _ => false) [⟨1, "A", none, 0⟩] [.node (some 1) "X" 1 []]
    { created := [], updated := [1], deleted := [] } [⟨1, "X", none, 1⟩]
    (by simp [idsKnownL, idsL])
    (by simp [saveTree, validateTree, namesOkL, noCycleL, normalizeForest, normL, maxId,
        diff, changed, findRec, writeRows, applyBatch, applyRows, upsert, recOfNorm] <;>
      decide)
    1

/-- C9 (counterexample): the claim as stated fails for a tree submitted
with an id unknown to the store: submitting `[{id := 5, name := A}]`
against an empty store yields empty `created`/`updated` and no retained
ids, yet 5 is in the id set of the submitted tree — the union misses it. -/
theorem save_complete_cex :
    saveTree (fun _ => false) [] [.node (some 5) "A" 0 []] =
        .ok ({ created := [], updated := [], deleted := [] }, []) ∧
      retainedIds [] [.node (some 5) "A" 0 []] = [] ∧
      (5 : Nat) ∈ (normalizeForest [] [.node (some 5) "A" 0 []]).map (fun r => r.id) := by
  refine ⟨?_, ?_, ?_⟩ <;>
    simp [saveTree, validateTree, namesOkL, noCycleL, normalizeForest, normL, maxId,
      diff, changed, findRec, writeRows, applyBatch, applyRows, upsert, recOfNorm,
      retainedIds] <;>
    decide

end Recon
